import Mathlib

/-!
# Verification of the AI-Indexing retrieval subsystem

Shallow embedding of the retrieval core of the AI-Indexing repository:
the relevance scorer (`SemanticSearchTool.calculateRelevanceScore`), the
search engine (`SemanticSearchTool.execute`) and the tool dispatcher
(`ToolExecutor.execute`), together with proofs of the spec's testable
properties.

Modelling conventions:
* JavaScript strings are Lean `String`s; `String.prototype.includes` is
  modelled by `strIncludes` (contiguous-substring test on the character
  lists), and `String.prototype.toLowerCase` by `String.toLower`.
* The knex/SQLite record store is modelled as a `List IndexRecord` in table
  row order; the query
  `where('keywords','like','%t%').orWhere('description','like','%t%').limit(3)`
  is `lookupTerm`: filter by the case-insensitive substring predicate over
  the two columns, then take the first 3 rows.  The search engine is also
  stated generically over an arbitrary per-term lookup function
  (`executeWith`), which is how the `db('indexing')` call is injected.
* JavaScript's `Array.prototype.sort` is stable (ES2019); the comparator
  `(a, b) => b.relevanceScore - a.relevanceScore` is modelled by the stable
  insertion sort `sortDesc`.
* `filter((r, i, self) => i === self.findIndex(x => x.id === r.id))`
  (keep the first occurrence of every id) is modelled by `dedupById`; the
  `find?` characterisation proved below shows it keeps exactly the first
  occurrence per id.
* Nullable / possibly-missing object fields (`record.keywords?`,
  `payload.arguments`) are `Option`s; a thrown JS exception is the
  `Except.error` branch; the `try`/`catch` of the dispatcher is the final
  `match` in `dispatch`.
-/

namespace AIIndexing

/-- JS `haystack.includes needle` on character lists:
`needlePrefixAt needle l` holds when `needle` starts at the head of `l`. -/
def containsSub (needle : List Char) : List Char → Bool
  | [] => needle.isEmpty
  | c :: cs => needle.isPrefixOf (c :: cs) || containsSub needle cs

/-- JS `s.includes t`: `t` occurs as a contiguous substring of `s`. -/
def strIncludes (s t : String) : Bool :=
  containsSub t.data s.data

/-- JS `String.prototype.toLowerCase`, characterwise (`Char.toLower` is the
ASCII case mapping, which covers the repository's data). -/
def toLowerCase (s : String) : String :=
  ⟨s.data.map Char.toLower⟩

/-- Splitter behind `query.split(/\s+/)`: cut at every whitespace character
(runs of whitespace then yield empty pieces, which the `length > 0` filter
in `tokenize` removes, exactly as the JS regex-plus-filter does). -/
def splitWsAux (acc : List Char) : List Char → List String
  | [] => [⟨acc.reverse⟩]
  | c :: cs =>
    if c.isWhitespace then ⟨acc.reverse⟩ :: splitWsAux [] cs
    else splitWsAux (c :: acc) cs

/-- A persisted index record (table `indexing`): `id` is the file path
primary key, `content` the generated repo map, `keywords` and `description`
the LLM-produced metadata.  The two searched fields are `Option String`
because `calculateRelevanceScore` defends against `null`/`undefined` via
`record.keywords?.toLowerCase() || ''`. -/
structure IndexRecord where
  id : String
  content : String
  keywords : Option String
  description : Option String
deriving DecidableEq

/-- An `IndexRecord` spread together with its computed score:
`{ ...record, relevanceScore }`. -/
structure ScoredRecord extends IndexRecord where
  relevanceScore : Nat
deriving DecidableEq

/-- `record.keywords?.toLowerCase() || ''`. -/
def searchedKeywords (record : IndexRecord) : String :=
  (record.keywords.map toLowerCase).getD ""

/-- `record.description?.toLowerCase() || ''`. -/
def searchedDescription (record : IndexRecord) : String :=
  (record.description.map toLowerCase).getD ""

/-- The body of the `searchTerms.forEach` loop of
`calculateRelevanceScore`: one term's update of the running score; +4 for
a keywords hit, +2 for a description hit, +2 more when both hit.
(`keywords` and `description` are computed before the loop in the source;
they are pure, so recomputing them per step is equivalent.) -/
def scoreStep (record : IndexRecord) (score : Nat) (term : String) : Nat :=
  let keywords := searchedKeywords record
  let description := searchedDescription record
  let score := if strIncludes keywords term then score + 4 else score
  let score := if strIncludes description term then score + 2 else score
  if strIncludes description term && strIncludes keywords term then score + 2 else score

/-- `SemanticSearchTool.calculateRelevanceScore`: `let score = 0`, then the
`forEach` fold of `scoreStep` over the search terms. -/
def calculateRelevanceScore (record : IndexRecord) (searchTerms : List String) : Nat :=
  searchTerms.foldl (scoreStep record) 0

/-- `query.toLowerCase().split(/\s+/).filter(term => term.length > 0)`. -/
def tokenize (query : String) : List String :=
  (splitWsAux [] (toLowerCase query).data).filter (fun term => term.length > 0)

/-- One `LIKE '%term%'` test of a nullable column (SQL `LIKE` is
case-insensitive; a `NULL` column never matches). -/
def likeMatch (field : Option String) (term : String) : Bool :=
  match field with
  | none => false
  | some s => strIncludes (toLowerCase s) (toLowerCase term)

/-- The store lookup issued once per term:
`db('indexing').where('keywords','like','%term%')
              .orWhere('description','like','%term%').limit(3)`
over a store in table row order. -/
def lookupTerm (store : List IndexRecord) (term : String) : List IndexRecord :=
  (store.filter (fun r => likeMatch r.keywords term || likeMatch r.description term)).take 3

/-- The scoring loop: every retrieved record (duplicates included) is
scored against the full term list. -/
def scoreRecords (searchTerms : List String) (searchResult : List IndexRecord) :
    List ScoredRecord :=
  searchResult.map (fun record =>
    { toIndexRecord := record
      relevanceScore := calculateRelevanceScore record searchTerms })

/-- Stable descending insertion: a later element is placed after every
earlier element whose score is `>` — and also after equal scores, which is
exactly the stable-sort tie behaviour of `Array.prototype.sort` with
comparator `(a, b) => b.relevanceScore - a.relevanceScore`. -/
def insertDesc (x : ScoredRecord) : List ScoredRecord → List ScoredRecord
  | [] => [x]
  | y :: ys =>
    if x.relevanceScore < y.relevanceScore then y :: insertDesc x ys
    else x :: y :: ys

/-- Stable sort by descending `relevanceScore`, modelling
`scoreResult.sort((a, b) => b.relevanceScore - a.relevanceScore)`. -/
def sortDesc : List ScoredRecord → List ScoredRecord
  | [] => []
  | x :: xs => insertDesc x (sortDesc xs)

/-- `sortedScoreResult.filter((record, index, self) =>
index === self.findIndex(r => r.id === record.id))`: keep the first
occurrence of every `id`, preserving order. -/
def dedupById : List ScoredRecord → List ScoredRecord
  | [] => []
  | x :: xs =>
    x :: (dedupById xs).filter (fun r => r.id ≠ x.id)

/-- The retrieval loop: per-term lookups issued in `lookupOrder`,
results concatenated (`searchResult.push(...queryResult)`). -/
def retrieveAll (lookup : String → List IndexRecord) (lookupOrder : List String) :
    List IndexRecord :=
  lookupOrder.flatMap lookup

/-- Score (against `searchTerms`), sort descending, deduplicate — the
tail of `SemanticSearchTool.execute` after retrieval, with the retrieval
order made explicit for the lookup-order claims. -/
def rankedOutput (lookup : String → List IndexRecord) (searchTerms lookupOrder : List String) :
    List ScoredRecord :=
  dedupById (sortDesc (scoreRecords searchTerms (retrieveAll lookup lookupOrder)))

/-- `SemanticSearchTool.execute`, generic over the injected per-term store
lookup.  Mirrors the source's guards:
`if (!query) return []`,
`if (query.length === 0 || query.length > 100) return []`,
tokenise, `if (searchTerms.length === 0) return []`,
then retrieve → score → sort → dedup. -/
def executeWith (lookup : String → List IndexRecord) (query : String) : List ScoredRecord :=
  if query = "" then []
  else if query.length = 0 ∨ query.length > 100 then []
  else
    let searchTerms := tokenize query
    if searchTerms.length = 0 then []
    else rankedOutput lookup searchTerms searchTerms

/-- `SemanticSearchTool.execute` over a concrete store state. -/
def execute (store : List IndexRecord) (query : String) : List ScoredRecord :=
  executeWith (lookupTerm store) query

/-- A tool call request `{name, arguments}`.  `arguments` is `none` when the
payload carries `null`/`undefined` (destructuring it then throws); otherwise
it is a key/value mapping. -/
structure ToolCallPayload where
  name : String
  arguments : Option (List (String × String))

/-- `const { key } = payload.arguments`: throws (a `TypeError`) when
`arguments` is `null`/`undefined`.  An absent key destructures to
`undefined`; every use below (the `!query` guard, the abstract file reader)
treats that exactly like the empty string, so it is modelled by `""`. -/
def destructureArg (arguments : Option (List (String × String))) (key : String) :
    Except String String :=
  match arguments with
  | none =>
    Except.error ("Cannot destructure property " ++ key ++
      " of payload.arguments as it is undefined.")
  | some args => Except.ok ((args.lookup key).getD "")

/-- `ToolExecutor.execute`: the `try` body routes on `payload.name`
(`file_reader`, `semantic_search`, or the `tool_not_found` default), the
trailing `match` is the `catch` converting any thrown failure into
`tool_error: message`.  The two tool implementations are the injected
collaborators; each may throw (`Except.error`). -/
def dispatch (fileReader : String → Except String String)
    (semanticSearch : String → Except String (List ScoredRecord))
    (payload : ToolCallPayload) : String :=
  let tryBody : Except String String :=
    match payload.name with
    | "file_reader" =>
      match destructureArg payload.arguments "target_file" with
      | Except.error e => Except.error e
      | Except.ok target_file => fileReader target_file
    | "semantic_search" =>
      match destructureArg payload.arguments "query" with
      | Except.error e => Except.error e
      | Except.ok query =>
        match semanticSearch query with
        | Except.error e => Except.error e
        | Except.ok result =>
          Except.ok (String.intercalate "\n" (result.map (fun item => item.content)))
    | _ => Except.ok ("tool_not_found: Tool '" ++ payload.name ++ "' not found")
  match tryBody with
  | Except.ok s => s
  | Except.error e => "tool_error: " ++ (e : String)

/-- The executor as wired in the repository: the semantic-search tool is
`SemanticSearchTool.execute` over the store (its store lookups may throw,
which the abstract `semanticSearch` argument of `dispatch` covers; on the
happy path it is total). -/
def toolExecutorExecute (fileReader : String → Except String String)
    (store : List IndexRecord) (payload : ToolCallPayload) : String :=
  dispatch fileReader (fun query => Except.ok (execute store query)) payload

/-!
## The spec-side per-term contribution

§4.1 of the spec describes the score as a sum of independent per-term
contributions; `specTermContribution` is that description, to be compared
with the source's accumulating fold. -/

/-- What one term contributes according to the spec: 4 for a keywords hit,
2 for a description hit, 2 more when both hit. -/
def specTermContribution (record : IndexRecord) (term : String) : Nat :=
  (if strIncludes (searchedKeywords record) term then 4 else 0) +
    (if strIncludes (searchedDescription record) term then 2 else 0) +
    (if strIncludes (searchedKeywords record) term ∧
        strIncludes (searchedDescription record) term then 2 else 0)

/-- One step of the scoring fold adds exactly the per-term contribution. -/
theorem scoreStep_eq (record : IndexRecord) (term : String) (a : Nat) :
    scoreStep record a term = a + specTermContribution record term := by
  unfold scoreStep
  cases hK : strIncludes (searchedKeywords record) term <;>
    cases hD : strIncludes (searchedDescription record) term <;>
      simp [specTermContribution, hK, hD]

/-- The scoring fold, started at `a`, computes `a` plus the sum of the
per-term contributions. -/
theorem calcFold_eq_sum (record : IndexRecord) (searchTerms : List String) (a : Nat) :
    searchTerms.foldl (scoreStep record) a =
      a + (searchTerms.map (specTermContribution record)).sum := by
  induction searchTerms generalizing a with
  | nil => simp
  | cons t ts ih =>
    simp only [List.foldl_cons, List.map_cons, List.sum_cons]
    rw [scoreStep_eq, ih]
    omega

/-- Each per-term contribution is even and at most 8. -/
theorem specTermContribution_even_le (record : IndexRecord) (term : String) :
    2 ∣ specTermContribution record term ∧ specTermContribution record term ≤ 8 := by
  unfold specTermContribution
  split <;> split <;> split <;> omega

/-- The per-term sum is bounded by 8 per term. -/
theorem specSum_le (record : IndexRecord) (searchTerms : List String) :
    (searchTerms.map (specTermContribution record)).sum ≤ 8 * searchTerms.length := by
  induction searchTerms with
  | nil => simp
  | cons t ts ih =>
    simp only [List.map_cons, List.sum_cons, List.length_cons]
    have := (specTermContribution_even_le record t).2
    omega

/-- The record used by the spec's first two scoring-exactness examples. -/
def exampleRecord1 : IndexRecord :=
  { id := "r1", content := "c1", keywords := some "alpha beta", description := some "gamma" }

/-- The record used by the spec's third scoring-exactness example. -/
def exampleRecord2 : IndexRecord :=
  { id := "r2", content := "c2", keywords := some "alpha", description := some "alpha" }

/-- C1: `calculateRelevanceScore` is the sum, over all terms, of 4 per
keywords hit plus 2 per description hit plus 2 more per both-fields hit
(so a term present in both fields contributes 8); and the spec's three
exactness examples: keywords "alpha beta" / description "gamma" scores 4
on query term "alpha" and 6 on terms "alpha gamma", and keywords "alpha" /
description "alpha" scores 8 on term "alpha". -/
theorem calculateRelevanceScore_eq_sum :
    (∀ (record : IndexRecord) (searchTerms : List String),
      calculateRelevanceScore record searchTerms =
        (searchTerms.map (specTermContribution record)).sum) ∧
    calculateRelevanceScore exampleRecord1 ["alpha"] = 4 ∧
    calculateRelevanceScore exampleRecord1 ["alpha", "gamma"] = 6 ∧
    calculateRelevanceScore exampleRecord2 ["alpha"] = 8 := by
  refine ⟨fun record searchTerms => ?_, by decide, by decide, by decide⟩
  simpa [calculateRelevanceScore] using calcFold_eq_sum record searchTerms 0

/-- The empty string contains no non-empty substring. -/
theorem strIncludes_empty_left (t : String) (ht : t ≠ "") :
    strIncludes "" t = false := by
  have hd : t.data ≠ [] := fun h => ht (by cases t; simp_all)
  simp only [strIncludes, containsSub]
  cases h : t.data with
  | nil => exact absurd h hd
  | cons c cs => simp [List.isEmpty, h]

/-- C10: `calculateRelevanceScore` is total over arbitrary records:
a `null`/`undefined`/missing `keywords` or `description` is treated as the
empty string (the score is unchanged when `none` is replaced by `some ""`),
so that for non-empty terms a record with both fields missing scores 0;
and the score is always an even natural number (hence non-negative) at
most `8 * searchTerms.length`.  Totality itself is the type: the function
is a total `IndexRecord → List String → Nat`, so no input makes it raise. -/
theorem calculateRelevanceScore_total :
    (∀ (i c : String) (d : Option String) (searchTerms : List String),
      calculateRelevanceScore ⟨i, c, none, d⟩ searchTerms =
        calculateRelevanceScore ⟨i, c, some "", d⟩ searchTerms) ∧
    (∀ (i c : String) (k : Option String) (searchTerms : List String),
      calculateRelevanceScore ⟨i, c, k, none⟩ searchTerms =
        calculateRelevanceScore ⟨i, c, k, some ""⟩ searchTerms) ∧
    (∀ (i c : String) (searchTerms : List String),
      (∀ t ∈ searchTerms, t ≠ "") →
      calculateRelevanceScore ⟨i, c, none, none⟩ searchTerms = 0) ∧
    (∀ (record : IndexRecord) (searchTerms : List String),
      2 ∣ calculateRelevanceScore record searchTerms ∧
        calculateRelevanceScore record searchTerms ≤ 8 * searchTerms.length) := by
  have hlower : toLowerCase "" = "" := rfl
  have congrScore : ∀ r1 r2 : IndexRecord, searchedKeywords r1 = searchedKeywords r2 →
      searchedDescription r1 = searchedDescription r2 →
      ∀ ts : List String, calculateRelevanceScore r1 ts = calculateRelevanceScore r2 ts := by
    intro r1 r2 h1 h2 ts
    simp only [calculateRelevanceScore]
    rw [calcFold_eq_sum, calcFold_eq_sum]
    have hspec : specTermContribution r1 = specTermContribution r2 := by
      funext t; simp only [specTermContribution, h1, h2]
    rw [hspec]
  refine ⟨?_, ?_, ?_, ?_⟩
  · intro i c d searchTerms
    exact congrScore _ _ rfl rfl searchTerms
  · intro i c k searchTerms
    exact congrScore _ _ rfl rfl searchTerms
  · intro i c searchTerms hne
    have h := calcFold_eq_sum ⟨i, c, none, none⟩ searchTerms 0
    simp only [calculateRelevanceScore]
    rw [h, Nat.zero_add]
    apply List.sum_eq_zero
    intro x hx
    obtain ⟨t, ht, rfl⟩ := List.mem_map.1 hx
    have hk : searchedKeywords ⟨i, c, none, none⟩ = "" := rfl
    have hd : searchedDescription ⟨i, c, none, none⟩ = "" := rfl
    simp [specTermContribution, hk, hd, strIncludes_empty_left t (hne t ht)]
  · intro record searchTerms
    have h := calcFold_eq_sum record searchTerms 0
    simp only [calculateRelevanceScore]
    rw [h, Nat.zero_add]
    constructor
    · exact List.dvd_sum fun x hx => by
        obtain ⟨t, _, rfl⟩ := List.mem_map.1 hx
        exact (specTermContribution_even_le record t).1
    · exact specSum_le record searchTerms

/-- C1 witness. -/
theorem calculateRelevanceScore_eq_sum_witness :
    calculateRelevanceScore exampleRecord1 ["alpha"] =
      (["alpha"].map (specTermContribution exampleRecord1)).sum :=
  calculateRelevanceScore_eq_sum.1 exampleRecord1 ["alpha"]

/-- C10 witness. -/
theorem calculateRelevanceScore_total_witness :
    calculateRelevanceScore ⟨"f", "m", none, none⟩ ["alpha"] = 0 :=
  calculateRelevanceScore_total.2.2.1 "f" "m" ["alpha"]
    (by intro t ht; simp at ht; simp [ht])

/-- C2: the input-rejection guards.  A query that is empty, or longer than
100 characters, or tokenises to no non-empty terms (only whitespace) makes
the engine return the empty list over every store; for the empty query the
first conjunct quantifies over the injected lookup function itself, so the
result is the empty list whatever the store lookup would do — the lookup is
never consulted. -/
theorem execute_guard_empty :
    (∀ lookup : String → List IndexRecord, executeWith lookup "" = []) ∧
    (∀ (store : List IndexRecord) (query : String),
      query = "" ∨ 100 < query.length ∨ tokenize query = [] →
      execute store query = []) := by
  constructor
  · intro lookup
    rfl
  · intro store query h
    simp only [execute, executeWith]
    split
    · rfl
    · split
      · rfl
      · split
        · rfl
        · rename_i h1 h2 h3
          exfalso
          rcases h with rfl | hlen | htok
          · exact h1 rfl
          · exact h2 (Or.inr hlen)
          · exact h3 (by rw [htok]; rfl)

/-!
## Sorting and deduplication lemmas -/

/-- Inserting is a permutation: `insertDesc x l` rearranges `x :: l`. -/
theorem insertDesc_perm (x : ScoredRecord) (l : List ScoredRecord) :
    (insertDesc x l).Perm (x :: l) := by
  induction l with
  | nil => exact List.Perm.refl _
  | cons y ys ih =>
    rw [insertDesc]
    split
    · exact (ih.cons y).trans (List.Perm.swap x y ys)
    · exact List.Perm.refl _

/-- The sort is a permutation of its input. -/
theorem sortDesc_perm (l : List ScoredRecord) : (sortDesc l).Perm l := by
  induction l with
  | nil => exact List.Perm.refl _
  | cons x xs ih => exact (insertDesc_perm x (sortDesc xs)).trans (ih.cons x)

/-- Membership in an insertion. -/
theorem mem_insertDesc {z x : ScoredRecord} {l : List ScoredRecord} :
    z ∈ insertDesc x l ↔ z = x ∨ z ∈ l := by
  rw [(insertDesc_perm x l).mem_iff, List.mem_cons]

/-- Inserting preserves descending sortedness. -/
theorem insertDesc_pairwise (x : ScoredRecord) (l : List ScoredRecord)
    (hl : l.Pairwise (fun a b => b.relevanceScore ≤ a.relevanceScore)) :
    (insertDesc x l).Pairwise (fun a b => b.relevanceScore ≤ a.relevanceScore) := by
  induction l with
  | nil => simp [insertDesc]
  | cons y ys ih =>
    rw [List.pairwise_cons] at hl
    obtain ⟨hy, hys⟩ := hl
    rw [insertDesc]
    split
    · rename_i hgt
      refine List.Pairwise.cons ?_ (ih hys)
      intro z hz
      rcases mem_insertDesc.1 hz with rfl | hz
      · exact Nat.le_of_lt hgt
      · exact hy z hz
    · rename_i hle
      refine List.Pairwise.cons ?_ (List.Pairwise.cons hy hys)
      intro z hz
      rcases List.mem_cons.1 hz with rfl | hz
      · exact Nat.le_of_not_lt hle
      · exact Nat.le_trans (hy z hz) (Nat.le_of_not_lt hle)

/-- The sorted list is descending in `relevanceScore`. -/
theorem sortDesc_pairwise (l : List ScoredRecord) :
    (sortDesc l).Pairwise (fun a b => b.relevanceScore ≤ a.relevanceScore) := by
  induction l with
  | nil => simp [sortDesc]
  | cons x xs ih => exact insertDesc_pairwise x (sortDesc xs) ih

/-- Deduplication only removes elements (it is a sublist, so it preserves
relative order). -/
theorem dedupById_sublist (l : List ScoredRecord) : (dedupById l).Sublist l := by
  induction l with
  | nil => simp [dedupById]
  | cons x xs ih =>
    rw [dedupById]
    exact ((List.filter_sublist _).trans ih).cons₂ x

/-- No two entries of the deduplicated list share an id. -/
theorem dedupById_pairwise_ne (l : List ScoredRecord) :
    (dedupById l).Pairwise (fun a b => a.id ≠ b.id) := by
  induction l with
  | nil => simp [dedupById]
  | cons x xs ih =>
    rw [dedupById]
    refine List.Pairwise.cons ?_ (ih.filter _)
    intro z hz
    have hne : z.id ≠ x.id := by
      have := (List.mem_filter.1 hz).2
      simpa using this
    exact fun h => hne h.symm

/-- Every entry the deduplication keeps is the *first* entry with its id in
the input list — the `findIndex` contract of the source's filter. -/
theorem dedupById_find (l : List ScoredRecord) :
    ∀ x ∈ dedupById l, l.find? (fun r => r.id == x.id) = some x := by
  induction l with
  | nil => intro x hx; simp [dedupById] at hx
  | cons y ys ih =>
    intro x hx
    rw [dedupById] at hx
    rcases List.mem_cons.1 hx with rfl | hx
    · exact List.find?_cons_of_pos _ (by simp)
    · have hmem := List.mem_filter.1 hx
      have hne : x.id ≠ y.id := by simpa using hmem.2
      rw [List.find?_cons_of_neg _ (by simpa using fun h => hne h.symm)]
      exact ih x hmem.1

/-- Members of the deduplicated list are members of the input. -/
theorem mem_of_mem_dedupById {x : ScoredRecord} {l : List ScoredRecord}
    (h : x ∈ dedupById l) : x ∈ l :=
  (dedupById_sublist l).mem h

/-- C3: the engine's output is sorted by non-increasing relevance score:
every adjacent pair `(a, b)` satisfies `b.relevanceScore ≤ a.relevanceScore`.
Stated over an arbitrary store state and query. -/
theorem execute_sorted (store : List IndexRecord) (query : String) :
    List.Chain' (fun a b => b.relevanceScore ≤ a.relevanceScore) (execute store query) := by
  simp only [execute, executeWith]
  split
  · simp
  · split
    · simp
    · split
      · simp
      · refine List.Pairwise.chain' ?_
        exact List.Pairwise.sublist (dedupById_sublist _) (sortDesc_pairwise _)

/-- C4: no two entries of the engine's output share an id, and the entry
kept for an id is the first occurrence of that id in the score-sorted
list (`find?` on the sorted list returns exactly the kept entry). -/
theorem execute_dedup (store : List IndexRecord) (query : String) :
    (execute store query).Pairwise (fun a b => a.id ≠ b.id) ∧
    ∀ x ∈ execute store query,
      (sortDesc (scoreRecords (tokenize query)
          (retrieveAll (lookupTerm store) (tokenize query)))).find?
        (fun r => r.id == x.id) = some x := by
  constructor
  · simp only [execute, executeWith]
    split
    · simp
    · split
      · simp
      · split
        · simp
        · exact dedupById_pairwise_ne _
  · simp only [execute, executeWith]
    split
    · intro x hx; simp at hx
    · split
      · intro x hx; simp at hx
      · split
        · intro x hx; simp at hx
        · exact dedupById_find _

/-- The spec §8 scenario store: a "database connection" record and a
"calculator math" record. -/
def demoStore : List IndexRecord :=
  [{ id := "a", content := "content-a", keywords := some "database connection",
     description := some "handles db pool" },
   { id := "b", content := "content-b", keywords := some "calculator math",
     description := some "adds numbers" }]

/-- The scored record the demo store yields for query "database". -/
def demoScoredA : ScoredRecord :=
  { toIndexRecord :=
      { id := "a", content := "content-a",
        keywords := some "database connection", description := some "handles db pool" },
    relevanceScore := 4 }

/-- C4 witness: on the demo store and query "database" the kept entry is
the first (only) occurrence of id "a" in the sorted scored list. -/
theorem execute_dedup_witness :
    demoScoredA ∈ execute demoStore "database" ∧
    (sortDesc (scoreRecords (tokenize "database")
        (retrieveAll (lookupTerm demoStore) (tokenize "database")))).find?
      (fun r => r.id == demoScoredA.id) = some demoScoredA :=
  ⟨by decide, (execute_dedup demoStore "database").2 _ (by decide)⟩

/-!
## Dispatcher theorems -/

/-- `containsSub` decides contiguous-substring occurrence. -/
theorem containsSub_iff (n : List Char) : ∀ h : List Char,
    containsSub n h = true ↔ n <:+: h := by
  intro h
  induction h with
  | nil => simp [containsSub]
  | cons c cs ih =>
    rw [containsSub, List.infix_cons_iff]
    simp [ih]

/-- A string built around `mid` contains `mid` as a substring. -/
theorem strIncludes_sandwich (pre mid post : String) :
    strIncludes (pre ++ mid ++ post) mid = true := by
  rw [strIncludes, containsSub_iff]
  exact ⟨pre.data, post.data, by simp⟩

/-- C5: the dispatcher never raises and always returns a string (it is a
total function into `String` by construction); an unknown tool name yields
the `tool_not_found` sentinel, which contains both the "not found" marker
and the offending name; and every failure thrown during argument
destructuring (`arguments` = `null`/`undefined`) or during tool execution
is caught and converted to the `tool_error:` sentinel carrying the thrown
message. -/
theorem dispatch_total_and_catches :
    (∀ (fr : String → Except String String)
       (ss : String → Except String (List ScoredRecord)) (payload : ToolCallPayload),
      payload.name ≠ "file_reader" → payload.name ≠ "semantic_search" →
      dispatch fr ss payload = "tool_not_found: Tool '" ++ payload.name ++ "' not found" ∧
      strIncludes (dispatch fr ss payload) "not found" = true ∧
      strIncludes (dispatch fr ss payload) payload.name = true) ∧
    (∀ (fr : String → Except String String)
       (ss : String → Except String (List ScoredRecord)) (name : String),
      name = "file_reader" ∨ name = "semantic_search" →
      ∃ e : String, dispatch fr ss ⟨name, none⟩ = "tool_error: " ++ e) ∧
    (∀ (fr : String → Except String String)
       (ss : String → Except String (List ScoredRecord))
       (args : List (String × String)) (target e : String),
      args.lookup "target_file" = some target → fr target = Except.error e →
      dispatch fr ss ⟨"file_reader", some args⟩ = "tool_error: " ++ e) ∧
    (∀ (fr : String → Except String String)
       (ss : String → Except String (List ScoredRecord))
       (args : List (String × String)) (q e : String),
      args.lookup "query" = some q → ss q = Except.error e →
      dispatch fr ss ⟨"semantic_search", some args⟩ = "tool_error: " ++ e) := by
  refine ⟨?_, ?_, ?_, ?_⟩
  · intro fr ss payload h1 h2
    have hdef : dispatch fr ss payload =
        "tool_not_found: Tool '" ++ payload.name ++ "' not found" := by
      obtain ⟨name, arguments⟩ := payload
      simp only [ToolCallPayload.name] at h1 h2 ⊢
      rw [dispatch]
      have : (match name with
          | "file_reader" =>
            match destructureArg arguments "target_file" with
            | Except.error e => Except.error e
            | Except.ok target_file => fr target_file
          | "semantic_search" =>
            match destructureArg arguments "query" with
            | Except.error e => Except.error e
            | Except.ok query =>
              match ss query with
              | Except.error e => Except.error e
              | Except.ok result =>
                Except.ok (String.intercalate "\n" (result.map (fun item => item.content)))
          | _ => Except.ok ("tool_not_found: Tool '" ++ name ++ "' not found")) =
          Except.ok ("tool_not_found: Tool '" ++ name ++ "' not found") := by
        split
        · exact absurd rfl h1
        · exact absurd rfl h2
        · rfl
      rw [this]
    refine ⟨hdef, ?_, ?_⟩
    · rw [hdef]
      have : "tool_not_found: Tool '" ++ payload.name ++ "' not found" =
          ("tool_not_found: Tool '" ++ payload.name ++ "' ") ++ "not found" ++ "" := by
        simp [String.append_assoc]
      rw [this]
      exact strIncludes_sandwich _ _ _
    · rw [hdef]
      exact strIncludes_sandwich "tool_not_found: Tool '" payload.name "' not found"
  · intro fr ss name h
    rcases h with rfl | rfl
    · exact ⟨"Cannot destructure property target_file of payload.arguments as it is undefined.",
        rfl⟩
    · exact ⟨"Cannot destructure property query of payload.arguments as it is undefined.", rfl⟩
  · intro fr ss args target e hlookup herr
    simp only [dispatch, destructureArg, hlookup, Option.getD_some, herr]
  · intro fr ss args q e hlookup herr
    simp only [dispatch, destructureArg, hlookup, Option.getD_some, herr]

/-- C5 witness: the unknown-tool example `{name: "bogus", arguments: {}}`
and one concrete caught failure per path. -/
theorem dispatch_total_and_catches_witness :
    (("bogus" : String) ≠ "file_reader" ∧ ("bogus" : String) ≠ "semantic_search" ∧
      strIncludes (dispatch (fun _ => Except.ok "") (fun _ => Except.ok []) ⟨"bogus", some []⟩)
        "not found" = true ∧
      strIncludes (dispatch (fun _ => Except.ok "") (fun _ => Except.ok []) ⟨"bogus", some []⟩)
        "bogus" = true) ∧
    ([("target_file", "f")].lookup "target_file" = some "f" ∧
      (fun _ : String => (Except.error "boom" : Except String String)) "f" =
        Except.error "boom" ∧
      dispatch (fun _ => Except.error "boom") (fun _ => Except.ok [])
        ⟨"file_reader", some [("target_file", "f")]⟩ = "tool_error: " ++ "boom") := by
  constructor
  · refine ⟨by decide, by decide, ?_, ?_⟩
    · exact ((dispatch_total_and_catches.1 _ _ ⟨"bogus", some []⟩
        (by decide) (by decide)).2).1
    · exact ((dispatch_total_and_catches.1 _ _ ⟨"bogus", some []⟩
        (by decide) (by decide)).2).2
  · exact ⟨rfl, rfl, dispatch_total_and_catches.2.2.1 _ _ [("target_file", "f")] "f" "boom"
      rfl rfl⟩

/-- C6: on a `semantic_search` payload whose arguments carry a string
`query`, the dispatcher returns exactly the `content` fields of the ranked,
deduplicated search results, in rank order, joined with newlines; when the
search yields no matches the returned string is empty. -/
theorem dispatch_semantic_search (fr : String → Except String String)
    (store : List IndexRecord) (args : List (String × String)) (query : String)
    (hq : args.lookup "query" = some query) :
    toolExecutorExecute fr store ⟨"semantic_search", some args⟩ =
      String.intercalate "\n" ((execute store query).map (fun item => item.content)) ∧
    (execute store query = [] →
      toolExecutorExecute fr store ⟨"semantic_search", some args⟩ = "") := by
  have h : toolExecutorExecute fr store ⟨"semantic_search", some args⟩ =
      String.intercalate "\n" ((execute store query).map (fun item => item.content)) := by
    simp only [toolExecutorExecute, dispatch, destructureArg, hq, Option.getD_some]
  refine ⟨h, fun hempty => ?_⟩
  rw [h, hempty]
  rfl

/-- C6 witness: the §8 scenario — query "database" on the demo store
returns record `a`'s content alone, and a no-match query returns "". -/
theorem dispatch_semantic_search_witness :
    ([("query", "database")].lookup "query" = some "database" ∧
      toolExecutorExecute (fun _ => Except.ok "") demoStore
        ⟨"semantic_search", some [("query", "database")]⟩ = "content-a") ∧
    ([("query", "zzz")].lookup "query" = some "zzz" ∧
      toolExecutorExecute (fun _ => Except.ok "") demoStore
        ⟨"semantic_search", some [("query", "zzz")]⟩ = "") := by
  constructor
  · refine ⟨rfl, ?_⟩
    have h := (dispatch_semantic_search (fun _ => Except.ok "") demoStore
      [("query", "database")] "database" rfl).1
    rw [h]
    decide
  · refine ⟨rfl, ?_⟩
    exact (dispatch_semantic_search (fun _ => Except.ok "") demoStore
      [("query", "zzz")] "zzz" rfl).2 (by decide)

/-- C9: the search is deterministic over the store: two calls with the same
query and an unmutated store return identical ordered output (the engine is
a pure function of the store state and the query). -/
theorem execute_deterministic (store1 store2 : List IndexRecord) (query : String)
    (hsame : store1 = store2) :
    execute store1 query = execute store2 query := by
  rw [hsame]

/-- C9 witness. -/
theorem execute_deterministic_witness :
    execute demoStore "database" = execute demoStore "database" :=
  execute_deterministic demoStore demoStore "database" rfl

/-!
## Commuting the stable sort, filtering and deduplication

Infrastructure for the dedup-after-sort vs dedup-before-sort equivalence
(C7) and for lookup-order permutation (C8). -/

/-- The comparator's strict test as a Bool predicate. -/
def scoreGt (s : Nat) (y : ScoredRecord) : Bool :=
  decide (s < y.relevanceScore)

/-- Insertion splits the list at the first element not strictly above
`x`'s score. -/
theorem insertDesc_eq (x : ScoredRecord) (l : List ScoredRecord) :
    insertDesc x l =
      l.takeWhile (scoreGt x.relevanceScore) ++
        x :: l.dropWhile (scoreGt x.relevanceScore) := by
  induction l with
  | nil => simp [insertDesc]
  | cons y ys ih =>
    rw [insertDesc]
    by_cases h : x.relevanceScore < y.relevanceScore
    · rw [if_pos h, List.takeWhile_cons_of_pos (by simpa [scoreGt] using h),
        List.dropWhile_cons_of_pos (by simpa [scoreGt] using h), ih, List.cons_append]
    · rw [if_neg h, List.takeWhile_cons_of_neg (by simpa [scoreGt] using h),
        List.dropWhile_cons_of_neg (by simpa [scoreGt] using h), List.nil_append]

/-- On a descending-sorted list, `takeWhile (> s)` and `dropWhile (> s)`
are the corresponding filters. -/
theorem sorted_takeWhile_dropWhile (s : Nat) (l : List ScoredRecord)
    (hl : l.Pairwise (fun a b => b.relevanceScore ≤ a.relevanceScore)) :
    l.takeWhile (scoreGt s) = l.filter (scoreGt s) ∧
      l.dropWhile (scoreGt s) = l.filter (fun y => !scoreGt s y) := by
  induction l with
  | nil => simp
  | cons y ys ih =>
    rw [List.pairwise_cons] at hl
    obtain ⟨hy, hys⟩ := hl
    obtain ⟨ih1, ih2⟩ := ih hys
    by_cases h : s < y.relevanceScore
    · constructor
      · rw [List.takeWhile_cons_of_pos (by simpa [scoreGt] using h),
          List.filter_cons_of_pos (by simpa [scoreGt] using h), ih1]
      · rw [List.dropWhile_cons_of_pos (by simpa [scoreGt] using h),
          List.filter_cons_of_neg (by simpa [scoreGt] using h), ih2]
    · constructor
      · rw [List.takeWhile_cons_of_neg (by simpa [scoreGt] using h),
          List.filter_cons_of_neg (by simpa [scoreGt] using h)]
        refine (List.filter_eq_nil_iff.2 fun z hz => ?_).symm
        have : z.relevanceScore ≤ s := Nat.le_trans (hy z hz) (Nat.le_of_not_lt h)
        simp [scoreGt, Nat.not_lt.2 this]
      · rw [List.dropWhile_cons_of_neg (by simpa [scoreGt] using h),
          List.filter_cons_of_pos (by simpa [scoreGt] using h)]
        refine (congrArg (y :: ·) ?_).symm
        refine List.filter_eq_self.2 fun z hz => ?_
        have : z.relevanceScore ≤ s := Nat.le_trans (hy z hz) (Nat.le_of_not_lt h)
        simp [scoreGt, Nat.not_lt.2 this]

/-- Filtering commutes with inserting into a sorted list when the inserted
element survives the filter. -/
theorem filter_insertDesc (p : ScoredRecord → Bool) (x : ScoredRecord)
    (l : List ScoredRecord)
    (hl : l.Pairwise (fun a b => b.relevanceScore ≤ a.relevanceScore))
    (hx : p x = true) :
    (insertDesc x l).filter p = insertDesc x (l.filter p) := by
  obtain ⟨t1, d1⟩ := sorted_takeWhile_dropWhile x.relevanceScore l hl
  obtain ⟨t2, d2⟩ :=
    sorted_takeWhile_dropWhile x.relevanceScore (l.filter p) (hl.filter p)
  rw [insertDesc_eq, insertDesc_eq, List.filter_append, List.filter_cons_of_pos hx,
    t1, d1, t2, d2]
  simp [List.filter_filter, Bool.and_comm]

/-- Filtering commutes with the stable sort. -/
theorem sortDesc_filter (p : ScoredRecord → Bool) (l : List ScoredRecord) :
    (sortDesc l).filter p = sortDesc (l.filter p) := by
  induction l with
  | nil => simp [sortDesc]
  | cons x xs ih =>
    rw [sortDesc]
    by_cases hx : p x = true
    · rw [filter_insertDesc p x (sortDesc xs) (sortDesc_pairwise xs) hx, ih,
        List.filter_cons_of_pos hx, sortDesc]
    · have hx' : p x = false := by simpa using hx
      rw [insertDesc_eq, List.filter_append, List.filter_cons_of_neg (by simp [hx']),
        ← List.filter_append, List.takeWhile_append_dropWhile, ih,
        List.filter_cons_of_neg (by simp [hx'])]

/-- Filtering by an id-determined predicate commutes with deduplication. -/
theorem dedupById_filter (p : ScoredRecord → Bool)
    (hp : ∀ a b : ScoredRecord, a.id = b.id → p a = p b) :
    ∀ l : List ScoredRecord, dedupById (l.filter p) = (dedupById l).filter p := by
  intro l
  induction l with
  | nil => simp [dedupById]
  | cons x xs ih =>
    by_cases hx : p x = true
    · rw [List.filter_cons_of_pos hx, dedupById, dedupById, ih]
      simp [hx, List.filter_filter, Bool.and_comm]
    · have hx' : p x = false := by simpa using hx
      rw [List.filter_cons_of_neg (by simp [hx']), dedupById, ih,
        List.filter_cons_of_neg (by simp [hx']), List.filter_filter]
      refine (List.filter_congr fun r _ => ?_).symm
      by_cases hpr : p r = true
      · have : r.id ≠ x.id := fun he => by
          rw [hp r x he, hx'] at hpr
          exact Bool.noConfusion hpr
        simp [hpr, this]
      · have : p r = false := by simpa using hpr
        simp [this]

/-- The source-shaped recursion of `dedupById`: keep the head, drop every
later entry with the head's id, recurse. -/
theorem dedupById_cons_filter (x : ScoredRecord) (xs : List ScoredRecord) :
    dedupById (x :: xs) =
      x :: dedupById (xs.filter (fun r => r.id ≠ x.id)) := by
  rw [dedupById, dedupById_filter]
  intro a b hab
  simp [hab]

/-- Deduplicating after inserting into a sorted list equals inserting into
the deduplicated remainder, provided no element sharing the inserted id has
a strictly larger score (fuel `n` bounds the list length). -/
theorem dedup_insertDesc_sorted :
    ∀ (n : Nat) (x : ScoredRecord) (S : List ScoredRecord), S.length ≤ n →
    S.Pairwise (fun a b => b.relevanceScore ≤ a.relevanceScore) →
    (∀ z ∈ S, z.id = x.id → z.relevanceScore ≤ x.relevanceScore) →
    dedupById (insertDesc x S) =
      insertDesc x (dedupById (S.filter (fun r => r.id ≠ x.id))) := by
  intro n
  induction n with
  | zero =>
    intro x S hlen _ _
    have : S = [] := List.length_eq_zero.1 (Nat.le_zero.1 hlen)
    subst this
    rfl
  | succ n ih =>
    intro x S hlen hsort hid
    cases S with
    | nil => rfl
    | cons y S' =>
      rw [List.pairwise_cons] at hsort
      obtain ⟨hy, hS'⟩ := hsort
      by_cases hxy : x.relevanceScore < y.relevanceScore
      · have hyid : y.id ≠ x.id := fun he =>
          absurd hxy (Nat.not_lt.2 (hid y (List.mem_cons_self _ _) he))
      -- insert past the head, dedup, and push the id filters through
        rw [insertDesc, if_pos hxy, dedupById_cons_filter,
          filter_insertDesc _ x S' hS' (decide_eq_true (Ne.symm hyid)),
          ih x (S'.filter (fun r => r.id ≠ y.id))
            (Nat.le_trans (List.length_filter_le _ _) (Nat.le_of_succ_le_succ hlen))
            (hS'.filter _)
            (fun z hz hzx => hid z (List.mem_cons_of_mem _ (List.mem_of_mem_filter hz)) hzx),
          List.filter_cons_of_pos (by simp [hyid]), dedupById_cons_filter,
          insertDesc, if_pos hxy, List.filter_filter, List.filter_filter]
        have : ∀ r : ScoredRecord,
            (decide (r.id ≠ x.id) && decide (r.id ≠ y.id)) =
              (decide (r.id ≠ y.id) && decide (r.id ≠ x.id)) := fun r => Bool.and_comm _ _
        rw [List.filter_congr fun r _ => this r]
      · have hyx : y.relevanceScore ≤ x.relevanceScore := Nat.le_of_not_lt hxy
        rw [insertDesc, if_neg hxy, dedupById_cons_filter]
        cases hD : dedupById ((y :: S').filter (fun r => r.id ≠ x.id)) with
        | nil => rfl
        | cons d ds =>
          have hd : d ∈ y :: S' := by
            have := mem_of_mem_dedupById (hD ▸ List.mem_cons_self d ds)
            exact List.mem_of_mem_filter this
          have hdle : d.relevanceScore ≤ x.relevanceScore := by
            rcases List.mem_cons.1 hd with rfl | hd'
            · exact hyx
            · exact Nat.le_trans (hy d hd') hyx
          rw [insertDesc, if_neg (Nat.not_lt.2 hdle)]

/-- Deduplicate-after-sort equals sort-after-deduplicate whenever entries
sharing an id share a score (fuel `n` bounds the list length). -/
theorem dedup_sortDesc_comm :
    ∀ (n : Nat) (l : List ScoredRecord), l.length ≤ n →
    (∀ a ∈ l, ∀ b ∈ l, a.id = b.id → a.relevanceScore = b.relevanceScore) →
    dedupById (sortDesc l) = sortDesc (dedupById l) := by
  intro n
  induction n with
  | zero =>
    intro l hlen _
    have : l = [] := List.length_eq_zero.1 (Nat.le_zero.1 hlen)
    subst this
    rfl
  | succ n ih =>
    intro l hlen hco
    cases l with
    | nil => rfl
    | cons x xs =>
      rw [sortDesc,
        dedup_insertDesc_sorted (sortDesc xs).length x (sortDesc xs) (Nat.le_refl _)
          (sortDesc_pairwise xs)
          (fun z hz hzx => Nat.le_of_eq
            (hco z (List.mem_cons_of_mem _ ((sortDesc_perm xs).mem_iff.1 hz))
              x (List.mem_cons_self _ _) hzx)),
        sortDesc_filter,
        ih (xs.filter (fun r => r.id ≠ x.id))
          (Nat.le_trans (List.length_filter_le _ _) (Nat.le_of_succ_le_succ hlen))
          (fun a ha b hb hab =>
            hco a (List.mem_cons_of_mem _ (List.mem_of_mem_filter ha))
              b (List.mem_cons_of_mem _ (List.mem_of_mem_filter hb)) hab),
        dedupById_cons_filter, sortDesc]

/-- Every record the retrieval loop returns is a store row. -/
theorem mem_store_of_mem_retrieveAll {store : List IndexRecord}
    {order : List String} {z : IndexRecord}
    (h : z ∈ retrieveAll (lookupTerm store) order) : z ∈ store := by
  rw [retrieveAll, List.mem_flatMap] at h
  obtain ⟨t, _, hz⟩ := h
  exact List.mem_of_mem_filter (List.mem_of_mem_take hz)

/-- Over a store with unique ids, two scored entries with the same id are
the same entry (same record, same score). -/
theorem scored_coherent {store : List IndexRecord} (terms order : List String)
    (hstore : store.Pairwise (fun a b => a.id ≠ b.id)) :
    ∀ a ∈ scoreRecords terms (retrieveAll (lookupTerm store) order),
    ∀ b ∈ scoreRecords terms (retrieveAll (lookupTerm store) order),
    a.id = b.id → a = b := by
  intro a ha b hb hid
  obtain ⟨r1, hr1, rfl⟩ := List.mem_map.1 ha
  obtain ⟨r2, hr2, rfl⟩ := List.mem_map.1 hb
  have h1 : r1 ∈ store := mem_store_of_mem_retrieveAll hr1
  have h2 : r2 ∈ store := mem_store_of_mem_retrieveAll hr2
  have hr : r1 = r2 := by
    by_contra hne
    exact hstore.forall (fun a b h => Ne.symm h) h1 h2 hne hid
  subst hr
  rfl

/-- C7: every retrieved record is scored against the full original term
list, so over a store with unique record ids all duplicates of an id get
identical scores (first conjunct); consequently the engine's
"sort by descending score, then keep first occurrence per id" produces the
same ordered output as "deduplicate by id first (keeping the first
retrieval occurrence), then sort by descending score" (second conjunct). -/
theorem engine_dedupAfterSort_eq_dedupBeforeSort (store : List IndexRecord)
    (terms : List String)
    (hstore : store.Pairwise (fun a b => a.id ≠ b.id)) :
    (∀ a ∈ scoreRecords terms (retrieveAll (lookupTerm store) terms),
     ∀ b ∈ scoreRecords terms (retrieveAll (lookupTerm store) terms),
      a.id = b.id → a.relevanceScore = b.relevanceScore) ∧
    dedupById (sortDesc (scoreRecords terms (retrieveAll (lookupTerm store) terms))) =
      sortDesc (dedupById (scoreRecords terms (retrieveAll (lookupTerm store) terms))) := by
  constructor
  · intro a ha b hb hid
    rw [scored_coherent terms terms hstore a ha b hb hid]
  · exact dedup_sortDesc_comm _ _ (Nat.le_refl _)
      (fun a ha b hb hid => by rw [scored_coherent terms terms hstore a ha b hb hid])

/-- C7 witness. -/
theorem engine_dedupAfterSort_eq_dedupBeforeSort_witness :
    dedupById (sortDesc (scoreRecords ["database"]
        (retrieveAll (lookupTerm demoStore) ["database"]))) =
      sortDesc (dedupById (scoreRecords ["database"]
        (retrieveAll (lookupTerm demoStore) ["database"]))) :=
  (engine_dedupAfterSort_eq_dedupBeforeSort demoStore ["database"] (by decide)).2

/-- Under coherence (same id ⇒ same entry), membership survives
deduplication in both directions. -/
theorem mem_dedupById_of_mem :
    ∀ (l : List ScoredRecord),
    (∀ a ∈ l, ∀ b ∈ l, a.id = b.id → a = b) →
    ∀ x ∈ l, x ∈ dedupById l := by
  intro l
  induction l with
  | nil => intro _ x hx; exact absurd hx (List.not_mem_nil x)
  | cons y ys ih =>
    intro hco x hx
    rcases List.mem_cons.1 hx with rfl | hx'
    · exact List.mem_cons_self _ _
    · by_cases hid : x.id = y.id
      · have : x = y := hco x hx y (List.mem_cons_self _ _) hid
        rw [this]
        exact List.mem_cons_self _ _
      · rw [dedupById]
        refine List.mem_cons.2 (Or.inr (List.mem_filter.2 ⟨?_, by simpa using hid⟩))
        exact ih (fun a ha b hb => hco a (List.mem_cons_of_mem _ ha)
          b (List.mem_cons_of_mem _ hb)) x hx'

/-- The deduplicated list has no duplicate entries at all. -/
theorem dedupById_nodup (l : List ScoredRecord) : (dedupById l).Nodup :=
  (dedupById_pairwise_ne l).imp fun hab he => hab (by rw [he])

/-- Deduplication sends permuted coherent inputs to permuted outputs. -/
theorem dedupById_perm_of_perm {l₁ l₂ : List ScoredRecord} (h : l₁.Perm l₂)
    (hco : ∀ a ∈ l₁, ∀ b ∈ l₁, a.id = b.id → a = b) :
    (dedupById l₁).Perm (dedupById l₂) := by
  have hco₂ : ∀ a ∈ l₂, ∀ b ∈ l₂, a.id = b.id → a = b := fun a ha b hb =>
    hco a (h.mem_iff.2 ha) b (h.mem_iff.2 hb)
  refine (List.perm_ext_iff_of_nodup (dedupById_nodup l₁) (dedupById_nodup l₂)).2 fun a => ?_
  constructor
  · intro ha
    exact mem_dedupById_of_mem l₂ hco₂ a (h.mem_iff.1 (mem_of_mem_dedupById ha))
  · intro ha
    exact mem_dedupById_of_mem l₁ hco a (h.mem_iff.2 (mem_of_mem_dedupById ha))

/-- The two-record store refuting order-independence of the final ordered
output: both records tie at score 4, so the stable sort keeps them in
retrieval order, which the lookup order determines. -/
def cexStore : List IndexRecord :=
  [{ id := "a", content := "ca", keywords := some "x", description := some "" },
   { id := "b", content := "cb", keywords := some "y", description := some "" }]

/-- C8 counterexample: for the query terms `["x", "y"]` over `cexStore`,
issuing the per-term lookups in the permuted order `["y", "x"]` and then
scoring, sorting and deduplicating yields a different ordered sequence
than the engine's own order `["x", "y"]` (the two tied records swap). -/
theorem lookupOrder_affects_output :
    tokenize "x y" = ["x", "y"] ∧
    List.Perm ["y", "x"] ["x", "y"] ∧
    rankedOutput (lookupTerm cexStore) ["x", "y"] ["y", "x"] ≠
      rankedOutput (lookupTerm cexStore) ["x", "y"] ["x", "y"] :=
  ⟨by decide, List.Perm.swap "x" "y" [], by decide⟩

/-- C8 (amended): over a store with unique record ids, issuing the
per-term lookups in any permuted order changes the final ranked,
deduplicated output at most up to a permutation: the same scored records
are returned (ties between distinct records may reorder; nothing is
gained or lost). -/
theorem rankedOutput_perm_of_lookupOrder_perm (store : List IndexRecord)
    (terms order : List String)
    (hstore : store.Pairwise (fun a b => a.id ≠ b.id))
    (hperm : order.Perm terms) :
    (rankedOutput (lookupTerm store) terms order).Perm
      (rankedOutput (lookupTerm store) terms terms) := by
  have h1 : (retrieveAll (lookupTerm store) order).Perm
      (retrieveAll (lookupTerm store) terms) := hperm.flatMap_right _
  have h2 : (scoreRecords terms (retrieveAll (lookupTerm store) order)).Perm
      (scoreRecords terms (retrieveAll (lookupTerm store) terms)) := h1.map _
  have h3 : (sortDesc (scoreRecords terms (retrieveAll (lookupTerm store) order))).Perm
      (sortDesc (scoreRecords terms (retrieveAll (lookupTerm store) terms))) :=
    ((sortDesc_perm _).trans h2).trans (sortDesc_perm _).symm
  exact dedupById_perm_of_perm h3 fun a ha b hb =>
    scored_coherent terms order hstore a ((sortDesc_perm _).mem_iff.1 ha)
      b ((sortDesc_perm _).mem_iff.1 hb)

/-- C8 amended-claim witness: the counterexample's store and orders do
yield permuted (here: reversed) outputs. -/
theorem rankedOutput_perm_of_lookupOrder_perm_witness :
    (rankedOutput (lookupTerm cexStore) ["x", "y"] ["y", "x"]).Perm
      (rankedOutput (lookupTerm cexStore) ["x", "y"] ["x", "y"]) :=
  rankedOutput_perm_of_lookupOrder_perm cexStore ["x", "y"] ["y", "x"]
    (by decide) (List.Perm.swap "x" "y" [])

/-- C2 witness: the guard theorem applied to the empty query, a
whitespace-only query and a 101-character query, over a concrete store. -/
theorem execute_guard_empty_witness :
    execute [exampleRecord1] "" = [] ∧
    execute [exampleRecord1] "   " = [] ∧
    execute [exampleRecord1] ⟨List.replicate 101 'a'⟩ = [] :=
  ⟨execute_guard_empty.2 [exampleRecord1] "" (Or.inl rfl),
   execute_guard_empty.2 [exampleRecord1] "   " (Or.inr (Or.inr (by decide))),
   execute_guard_empty.2 [exampleRecord1] ⟨List.replicate 101 'a'⟩
     (Or.inr (Or.inl (by decide)))⟩

end AIIndexing
